import Mathlib

/-!
Verification of the MarkdownGov Markdown-to-Word conversion engine.

The development shallowly embeds the Python sources:
  * `src/converter.py`   — class `MarkdownToWordConverter`: `convert`,
    `_detect_title`, `_parse_markdown_to_word`, `_extract_metadata`,
    `_apply_metadata`;
  * `src/style_detector.py` — class `MarkdownStyleDetector`:
    `scan_markdown_styles`, `get_all_styles`, `ensure_styles_exist`,
    `_create_style`.

Strings are modelled as Lean `String`/`List Char`; Python regular
expressions used by the code (`^(#{1,6})\s*(.*)`, `^[-*+]\s+`, `^\d+\.\s+`,
backtick code spans, the lazy emphasis substitutions and the tag split) are
embedded as executable character-list scanners mirroring the leftmost,
non-greedy matching the `re` module performs on newline-free lines.
External collaborators (the `docx` document object, the PyYAML loader and
the file system) are modelled as explicit data: a `Doc`/`Template`
structure, a yaml-parser oracle passed as a function argument, and a
path-indexed map for saved templates.
-/

namespace MarkdownGov

/-! ### Python string primitives -/

/-- The whitespace class used by Python `str.strip()` and by `\s` in the
`re` patterns of the source (for the ASCII inputs at issue):
space, tab, newline, carriage return, vertical tab, form feed. -/
def wsChar (c : Char) : Bool :=
  c = ' ' || c = '\t' || c = '\n' || c = '\r' || c = '\x0b' || c = '\x0c'

/-- Python `str.strip()` on a character list. -/
def pyStripCs (cs : List Char) : List Char :=
  ((cs.dropWhile wsChar).reverse.dropWhile wsChar).reverse

/-- Python `str.strip()`. -/
def pyStrip (s : String) : String := ⟨pyStripCs s.data⟩

/-- Python `str.startswith`. -/
def pyStartsWith (s pre : String) : Bool := pre.data.isPrefixOf s.data

/-! ### Title detection (`converter.py`, `_detect_title`, lines 72-88) -/

/-- The underline test of `_detect_title` line 81:
`next_line.startswith("=") and len(next_line) >= 3`, applied to the
stripped next line.  Note the source does NOT require the line to consist
entirely of `=` characters. -/
def underlineFires (s : String) : Bool :=
  match s.data with
  | '=' :: _ => decide (3 ≤ s.data.length)
  | _ => false

/-- The loop of `_detect_title` (lines 74-88).  Returns the detected title
(if any) and the line list the method returns:
on detection at index `i` the raw suffix `md_lines[i+2:]` (the accumulated
`clean_lines` are discarded), otherwise the accumulated stripped lines
`[md_lines[i].strip() for i in range(len(md_lines)-1)]` — note
`range(len-1)` never appends the final line. -/
def detectGo : List String → Option String × List String
  | [] => (none, [])
  | [_] => (none, [])
  | a :: b :: rest =>
    if underlineFires (pyStrip b) then (some (pyStrip a), rest)
    else
      match detectGo (b :: rest) with
      | (some t, out) => (some t, out)
      | (none, cl) => (none, pyStrip a :: cl)

/-! ### Metadata (`converter.py`, `_extract_metadata`, lines 161-197) -/

/-- The sentinel default used for every recognized metadata field. -/
def sentinel : String := "-unassigned-"

/-- Python `dict` with string keys/values, in insertion order. -/
abbrev Meta := List (String × String)

/-- The default metadata dict of `_extract_metadata` lines 163-171. -/
def defaultMeta : Meta :=
  [("Title", sentinel), ("Document ID", sentinel), ("Facility", sentinel),
   ("Version", sentinel), ("Category", sentinel), ("Content", sentinel),
   ("Author", sentinel)]

/-- Python `d[k] = v`: update the value at an existing key in place, else
append the new pair. -/
def dictSet : Meta → String → String → Meta
  | [], k, v => [(k, v)]
  | (k', v') :: rest, k, v =>
    if k' = k then (k', v) :: rest else (k', v') :: dictSet rest k v

/-- Python `d[k]` / `d.get(k)` as an optional lookup. -/
def dictGet (m : Meta) (k : String) : Option String := m.lookup k

/-- Embedding of `_detect_title` wrapped as the source method: assigns
`metadata["Title"]` on detection. -/
def detectTitle (lines : List String) (m : Meta) : Meta × List String :=
  match detectGo lines with
  | (some t, out) => (dictSet m "Title" t, out)
  | (none, cl) => (m, cl)

/-- The front-matter collection loop of `_extract_metadata` lines 173-185:
a stripped line equal to `---` toggles the `in_yaml_block` flag; lines
seen while the flag is set are collected (stripped). -/
def collectYaml : Bool → List String → List String
  | _, [] => []
  | flag, l :: rest =>
    let s := pyStrip l
    if s = "---" then collectYaml (!flag) rest
    else if flag then s :: collectYaml flag rest
    else collectYaml flag rest

/-- Result value of the external `yaml.safe_load` call, restricted to the
shapes relevant here: `None`, an integer scalar, a string scalar, or a
flat mapping with string keys and string values. -/
inductive YamlVal
  | vnull
  | vint (n : Int)
  | vstr (s : String)
  | vmap (kvs : List (String × String))
deriving DecidableEq, Repr

/-- Outcome of `yaml.safe_load`: either a `yaml.YAMLError` (the only
exception `_extract_metadata` catches) or a parsed value. -/
inductive YamlResult
  | parseError
  | value (v : YamlVal)
deriving DecidableEq, Repr

/-- Embedding of `"\n".join(...)` of `_extract_metadata` line 190. -/
def joinNl (ls : List String) : String := String.intercalate "\n" ls

/-- Embedding of `_extract_metadata` (lines 161-197), parameterized by the external
`yaml.safe_load` oracle `p`.  Faithful to the Python update loop
`for key in extracted_metadata: metadata[key] = extracted_metadata[key]`:
a mapping result folds its pairs into the defaults; a `None` or integer
result raises an uncaught `TypeError` (`.error ()`) because `None`/`int`
is not iterable; a non-empty string result raises `TypeError` when its
first character is used to index the string; an empty string iterates
zero times and leaves the defaults.  A `YAMLError` is caught (lines
194-195) and leaves the defaults. -/
def extractMetadata (p : String → YamlResult) (lines : List String) :
    Except Unit Meta :=
  let content := collectYaml false lines
  if content.isEmpty then .ok defaultMeta
  else
    match p (joinNl content) with
    | .parseError => .ok defaultMeta
    | .value (.vmap kvs) =>
      .ok (kvs.foldl (fun m kv => dictSet m kv.1 kv.2) defaultMeta)
    | .value .vnull => .error ()
    | .value (.vint _) => .error ()
    | .value (.vstr s) => if s.isEmpty then .ok defaultMeta else .error ()

/-! ### Line classification (regexes shared by both source files) -/

/-- Count of leading `#` characters. -/
def leadHashes : List Char → Nat
  | '#' :: r => leadHashes r + 1
  | _ => 0

/-- Whether `re.match(r'^(#{1,6})\s*(.*)', line)` succeeds on a stripped
line: exactly when the line starts with `#` (the quantifiers `\s*` and
`.*` always succeed). -/
def isHeadingLine (s : String) : Bool :=
  match s.data with
  | '#' :: _ => true
  | _ => false

/-- Embedding of `len(match.group(1))`: the greedy `#{1,6}` takes at most six leading
hashes. -/
def headingLevel (s : String) : Nat := min (leadHashes s.data) 6

/-- Embedding of `match.group(2)`: the text after the captured hashes, with the greedy
`\s*` having consumed the following whitespace run. -/
def headingText (s : String) : String :=
  ⟨(s.data.drop (headingLevel s)).dropWhile wsChar⟩

/-- Embedding of `re.match(r'^[-*+]\s+', line)`: a list-marker character followed by at
least one whitespace character. -/
def isBulletLine (s : String) : Bool :=
  match s.data with
  | c :: d :: _ => (c = '-' || c = '*' || c = '+') && wsChar d
  | _ => false

/-- Embedding of `re.match(r'^\d+\.\s+', line)`: one or more digits, a dot, then at
least one whitespace character. -/
def isOrderedLine (s : String) : Bool :=
  let ds := s.data.takeWhile Char.isDigit
  !ds.isEmpty &&
    match s.data.drop ds.length with
    | '.' :: e :: _ => wsChar e
    | _ => false

/-- Embedding of `line.startswith(">")`. -/
def isQuoteLine (s : String) : Bool :=
  match s.data with
  | '>' :: _ => true
  | _ => false

/-- Whether `re.search(r'`.+?`', line)` succeeds: some backtick is
followed, at distance at least two, by another backtick. -/
def hasCodeSpan : List Char → Bool
  | [] => false
  | '\x60' :: rest => (rest.drop 1).contains '\x60' || hasCodeSpan rest
  | _ :: rest => hasCodeSpan rest

/-! ### Style requirement scanner
(`style_detector.py`, `scan_markdown_styles`, lines 12-57) -/

/-- Python `set.add` on the insertion-ordered list model of a set. -/
def setAdd (l : List String) (x : String) : List String :=
  if x ∈ l then l else l ++ [x]

/-- The per-line loop of `scan_markdown_styles` (lines 19-52).  State is
the pair (`required_styles`, `current_level`). -/
def scanGo : List String × Nat → List String → List String × Nat
  | st, [] => st
  | (acc, lvl), l :: rest =>
    let s := pyStrip l
    if s.data.isEmpty then scanGo (acc, lvl) rest
    else if isHeadingLine s then
      scanGo (setAdd acc ("Heading " ++ toString (headingLevel s)),
              headingLevel s) rest
    else if isBulletLine s then scanGo (setAdd acc "List Bullet", lvl) rest
    else if isOrderedLine s then scanGo (setAdd acc "List Number", lvl) rest
    else if isQuoteLine s then scanGo (setAdd acc "Quote", lvl) rest
    else if hasCodeSpan s.data then scanGo (setAdd acc "Code", lvl) rest
    else scanGo (setAdd acc ("Body Text " ++ toString lvl), lvl) rest

/-- Embedding of `scan_markdown_styles` on an input whose lines are `lines`, run on a
detector whose `current_level` field currently holds `lvl`.  The method
clears `required_styles` on entry (line 14) but does NOT reset
`current_level`. -/
def scanStyles (lvl : Nat) (lines : List String) : List String × Nat :=
  scanGo ([], lvl) lines

/-! ### Inline code spans (`converter.py` lines 127-135)

`re.findall(r'`(.*?)`', line)` pairs backticks leftmost-first with lazy
(shortest) contents, and `re.sub(r'`(.*?)`', '', line)` deletes exactly
those matches.  Equivalently: split the line at every backtick; the parts
at odd positions (between the 1st and 2nd backtick, the 3rd and 4th, ...)
are the captured code snippets, and a final unpaired backtick stays
literal in the remaining text. -/

/-- Split a character list at every backtick. -/
def splitTicks : List Char → List (List Char)
  | [] => [[]]
  | c :: r =>
    if c = '\x60' then [] :: splitTicks r
    else
      match splitTicks r with
      | p :: ps => (c :: p) :: ps
      | [] => [[c]]

/-- Reassemble what `splitTicks` produced. -/
def unsplitTicks : List (List Char) → List Char
  | [] => []
  | [p] => p
  | p :: ps => p ++ '\x60' :: unsplitTicks ps

/-- Pair up the backtick-separated parts: odd parts become code snippets,
even parts remain in the line; a trailing unpaired backtick is kept
literally. Returns (snippets, line with the matched spans removed). -/
def codePair : List (List Char) → List (List Char) × List Char
  | [] => ([], [])
  | [p] => ([], p)
  | [p, q] => ([], p ++ '\x60' :: q)
  | p :: q :: r :: rest =>
    let (ms, out) := codePair (r :: rest)
    (q :: ms, p ++ out)

/-- The combined effect of lines 128 and 135 of `converter.py`:
`(re.findall(r'`(.*?)`', line), re.sub(r'`(.*?)`', '', line))`. -/
def codeScan (s : List Char) : List (List Char) × List Char :=
  codePair (splitTicks s)

/-! ### Emphasis substitutions (`converter.py` lines 138-140)

`re.sub(r'\*\*\*(.*?)\*\*\*', ...)` (and the `**`, `*` variants) scans
left to right; at the leftmost occurrence of the delimiter it pairs it
with the next occurrence (lazy `.*?`), wraps the content, and continues
after the match; a delimiter occurrence with no later partner is left
literal.  Equivalently: split at the leftmost non-overlapping delimiter
occurrences and wrap every odd part, re-inserting a final unpaired
delimiter literally. -/

/-- Split `s` at the first occurrence of the (non-empty) literal `d`:
`some (before, after)` where `s = before ++ d ++ after`, or `none`. -/
def splitOnDelim : List Char → List Char → Option (List Char × List Char)
  | [], _ => none
  | _ :: _, [] => none
  | d, x :: xs =>
    if d.isPrefixOf (x :: xs) then some ([], (x :: xs).drop d.length)
    else
      match splitOnDelim d xs with
      | some (b, a) => some (x :: b, a)
      | none => none

/-- Fueled splitting at every leftmost non-overlapping occurrence of `d`.
With fuel at least `s.length` the fuel never runs out. -/
def splitSepsF (d : List Char) : Nat → List Char → List (List Char)
  | 0, s => [s]
  | fuel + 1, s =>
    match splitOnDelim d s with
    | none => [s]
    | some (b, a) => b :: splitSepsF d fuel a

/-- Split at every leftmost non-overlapping occurrence of `d`. -/
def splitSeps (d s : List Char) : List (List Char) :=
  splitSepsF d s.length s

/-- Reassemble the parts of a lazy pairwise substitution: parts at odd
positions are wrapped in `wl`/`wr`, delimiters between matched pairs are
consumed, and a final unpaired delimiter is kept literal. -/
def glueParts (d wl wr : List Char) : List (List Char) → List Char
  | [] => []
  | [p] => p
  | [p, q] => p ++ d ++ q
  | p :: q :: r :: rest => p ++ wl ++ q ++ wr ++ glueParts d wl wr (r :: rest)

/-- Embedding of `re.sub(d + '(.*?)' + d, wl + r'\1' + wr, s)` for a literal delimiter
`d`, as performed by `converter.py` lines 138-140. -/
def subPairs (d wl wr s : List Char) : List Char :=
  glueParts d wl wr (splitSeps d s)

/-- The three chained substitutions of lines 138-140: bold+italic, then
bold, then italic. -/
def emphAll (s : List Char) : List Char :=
  subPairs "*".data "<i>".data "</i>".data
    (subPairs "**".data "<b>".data "</b>".data
      (subPairs "***".data "<b><i>".data "</i></b>".data s))

/-! ### Tag tokenization (`converter.py` lines 142-157) -/

/-- Which of the four alternatives of `re.split(r'(<b>|</b>|<i>|</i>)', .)`
matches at the head of `s` (the alternatives are mutually exclusive at any
one position). -/
def tagAt (s : List Char) : Option (List Char) :=
  if "<b>".data.isPrefixOf s then some "<b>".data
  else if "</b>".data.isPrefixOf s then some "</b>".data
  else if "<i>".data.isPrefixOf s then some "<i>".data
  else if "</i>".data.isPrefixOf s then some "</i>".data
  else none

/-- Leftmost tag occurrence: `some (before, tag, after)`. -/
def findTag : List Char → Option (List Char × List Char × List Char)
  | [] => none
  | x :: xs =>
    match tagAt (x :: xs) with
    | some t => some ([], t, (x :: xs).drop t.length)
    | none =>
      match findTag xs with
      | some (b, t, a) => some (x :: b, t, a)
      | none => none

/-- Fueled `re.split(r'(<b>|</b>|<i>|</i>)', s)` keeping the separators
(line 142).  With fuel at least `s.length` the fuel never runs out. -/
def splitTagsF : Nat → List Char → List (List Char)
  | 0, s => [s]
  | fuel + 1, s =>
    match findTag s with
    | none => [s]
    | some (b, t, a) => b :: t :: splitTagsF fuel a

/-- Embedding of `re.split(r'(<b>|</b>|<i>|</i>)', s)` keeping the separators. -/
def splitTags (s : List Char) : List (List Char) := splitTagsF s.length s

/-- Fueled deletion of every tag occurrence (a specification-side
companion of `splitTags`, used to state what text survives the token
walk). -/
def stripTagsF : Nat → List Char → List Char
  | 0, s => s
  | fuel + 1, s =>
    match findTag s with
    | none => s
    | some (b, _, a) => b ++ stripTagsF fuel a

/-- The input with every `<b>`, `</b>`, `<i>`, `</i>` occurrence deleted in a
single left-to-right pass. -/
def stripTags (s : List Char) : List Char := stripTagsF s.length s

/-! ### Runs and the paragraph branch (`converter.py` lines 124-158) -/

/-- A `python-docx` run: its text, an optional character style, and the
optional bold/italic flags (`None` when never assigned). -/
structure Run where
  text : List Char
  style : Option String
  bold : Option Bool
  italic : Option Bool
deriving DecidableEq, Repr

/-- The token walk of lines 143-157: `<b>`/`</b>`/`<i>`/`</i>` toggle the
flags, every other token becomes a run carrying the current flags. -/
def emitRuns : Bool → Bool → List (List Char) → List Run
  | _, _, [] => []
  | bo, it, tok :: ts =>
    if tok = "<b>".data then emitRuns true it ts
    else if tok = "</b>".data then emitRuns false it ts
    else if tok = "<i>".data then emitRuns bo true ts
    else if tok = "</i>".data then emitRuns bo false ts
    else ⟨tok, none, some bo, some it⟩ :: emitRuns bo it ts

/-- The runs the paragraph branch (lines 124-157) adds for one stripped
non-blank non-heading line `s`: first one `Inline Code`-styled run per
code snippet (lines 129-133), then — after the code spans are removed
(line 135) and the emphasis substitutions run (lines 138-140) — the runs
of the token walk. -/
def paragraphRuns (s : List Char) : List Run :=
  let cs := codeScan s
  let codeRuns : List Run := cs.1.map (fun c => ⟨c, some "Inline Code", none, none⟩)
  let line := if cs.1.isEmpty then s else cs.2
  codeRuns ++ emitRuns false false (splitTags (emphAll line))

/-- Concatenation of the text of a run list. -/
def joinCs (l : List (List Char)) : List Char := l.foldr (· ++ ·) []

/-- The concatenated text of a list of runs. -/
def runsText (rs : List Run) : List Char := joinCs (rs.map Run.text)

/-! ### The Word document model and `_parse_markdown_to_word` -/

/-- A `python-docx` paragraph: optional paragraph style, optional left
indent in quarter-inch units (the source only ever sets multiples of
0.25"), and its runs. -/
structure Para where
  style : Option String
  indent : Option Nat
  runs : List Run
deriving DecidableEq, Repr

/-- The output `docx` document: its style catalog (names), body
paragraphs in order, and the core properties the source assigns. -/
structure Doc where
  styles : List String
  paragraphs : List Para
  coreTitle : String
  coreAuthor : String
  coreSubject : String
  coreVersion : String
deriving DecidableEq, Repr

/-- Embedding of `doc.add_paragraph()` + appending content. -/
def addPara (d : Doc) (p : Para) : Doc :=
  { d with paragraphs := d.paragraphs ++ [p] }

/-- Embedding of `doc.add_paragraph(text, style=style)`: one plain run holding `text`
(no run at all when the text is empty). -/
def addParaText (d : Doc) (text : String) (style : Option String) : Doc :=
  addPara d ⟨style, none,
    if text.data.isEmpty then [] else [⟨text.data, none, none, none⟩]⟩

/-- The line loop of `_parse_markdown_to_word` (lines 101-159), carrying
`current_indent` in quarter-inch units.  A heading line emits a
paragraph styled `Heading N` for its level `N`, at indent `N - 1` quarters, and
resets the carried indent; every other non-blank line is processed by the
paragraph branch at the carried indent.  The source has no list, quote or
code-block branch. -/
def parseMDGo : Nat → Doc → List String → Doc
  | _, doc, [] => doc
  | ind, doc, l :: rest =>
    let s := pyStrip l
    if s.data.isEmpty then parseMDGo ind doc rest
    else if isHeadingLine s then
      let k := headingLevel s
      parseMDGo (k - 1)
        (addPara doc ⟨some ("Heading " ++ toString k), some (k - 1),
          if (headingText s).data.isEmpty then []
          else [⟨(headingText s).data, none, none, none⟩]⟩) rest
    else
      parseMDGo ind (addPara doc ⟨none, some ind, paragraphRuns s.data⟩) rest

/-- Embedding of `_parse_markdown_to_word` (lines 90-159): first ensures the
`Inline Code` character style exists in the document (lines 95-99;
`python-docx` `Styles.__contains__` compares style names), then walks the
lines with `current_indent = 0`. -/
def parseMarkdownToWord (lines : List String) (doc : Doc) : Doc :=
  let doc :=
    if "Inline Code" ∈ doc.styles then doc
    else { doc with styles := doc.styles ++ ["Inline Code"] }
  parseMDGo 0 doc lines

/-- Embedding of `_apply_metadata` (lines 200-215): assigns the core properties from
the metadata dict (all keys are present, so `dict.get` returns the stored
value) and appends the three labelled `Normal` paragraphs. -/
def applyMetadata (doc : Doc) (m : Meta) : Doc :=
  let doc := { doc with
    coreTitle := (dictGet m "Title").getD sentinel,
    coreAuthor := (dictGet m "Author").getD sentinel,
    coreSubject := (dictGet m "Category").getD sentinel,
    coreVersion := (dictGet m "Version").getD sentinel }
  let doc := addParaText doc ("Document ID: " ++ (dictGet m "Document ID").getD sentinel) (some "Normal")
  let doc := addParaText doc ("Facility: " ++ (dictGet m "Facility").getD sentinel) (some "Normal")
  addParaText doc ("Content Category: " ++ (dictGet m "Content").getD sentinel) (some "Normal")

/-- Embedding of `convert` (lines 22-69), with the output-path generation and file I/O
of lines 26-36 and 66 factored out: takes the yaml oracle, the document
loaded from the template, and the markdown lines.  An uncaught exception
from `_extract_metadata` aborts the conversion. -/
def convert (p : String → YamlResult) (tDoc : Doc) (lines : List String) :
    Except Unit Doc :=
  match extractMetadata p lines with
  | .error e => .error e
  | .ok m0 =>
    let mc :=
      if dictGet m0 "Title" = some sentinel then detectTitle lines m0
      else (m0, lines)
    let titleText := (dictGet mc.1 "Title").getD ""
    let doc := addParaText tDoc titleText (some "Title")
    let doc := { doc with coreTitle := titleText }
    let doc := parseMarkdownToWord mc.2 doc
    .ok (applyMetadata doc mc.1)

/-! ### Templates and style reconciliation
(`style_detector.py`, lines 59-148) -/

/-- A Word template as the reconciler sees it: the proper style names of
the document plus any latent (hidden) style names `get_all_styles`
collects from the latent-styles element. -/
structure Template where
  styles : List String
  latent : List String
deriving DecidableEq, Repr

/-- Embedding of `get_all_styles` (lines 59-77): the set of proper style names united
with the latent style names. -/
def getAllStyles (t : Template) : List String := t.styles ++ t.latent

/-- Embedding of `styles.add_style(name, 1)`: appends a new proper style. -/
def addStyle (t : Template) (name : String) : Template :=
  { t with styles := t.styles ++ [name] }

/-- Python `str.split(" ")`: split at every single space, keeping empty
pieces. -/
def splitSpace : List Char → List (List Char)
  | [] => [[]]
  | ' ' :: r => [] :: splitSpace r
  | c :: r =>
    match splitSpace r with
    | p :: ps => (c :: p) :: ps
    | [] => [[c]]

/-- Python `int(x)` restricted to the plain digit strings that occur here
(the source only ever parses the numeric halves of `Heading N` names). -/
def pyIntParse (cs : List Char) : Option Nat :=
  if !cs.isEmpty && cs.all Char.isDigit then
    some (cs.foldl (fun n c => n * 10 + (c.toNat - 48)) 0)
  else none

/-- Embedding of `int(style_name.split(" ")[1])` of `_create_style` line 118; `none`
models the uncaught `IndexError`/`ValueError` when the name has no second
space-separated numeric piece. -/
def parseHeadingLevel (name : String) : Option Nat :=
  match (splitSpace name.data).get? 1 with
  | none => none
  | some piece => pyIntParse piece

/-- Embedding of `_create_style` (lines 113-148): the `if`/`elif` chain by style-name
family.  A name matching no branch falls through with no style created;
a `Heading`-prefixed name whose level does not parse raises (`none`).
The synthesized font/alignment attributes are not modelled — only the
presence of the created style name matters to the reconciler. -/
def createStyle (t : Template) (name : String) : Option Template :=
  if pyStartsWith name "Heading" then
    match parseHeadingLevel name with
    | none => none
    | some _ => some (addStyle t name)
  else if pyStartsWith name "Body Text" then some (addStyle t name)
  else if name = "Quote" then some (addStyle t name)
  else if name = "List Bullet" then some (addStyle t name)
  else if name = "List Number" then some (addStyle t name)
  else if name = "Code" then some (addStyle t name)
  else some t

/-- The creation loop of `ensure_styles_exist` lines 96-100. -/
def createAll (t : Template) : List String → Option Template
  | [] => some t
  | n :: ns =>
    match createStyle t n with
    | none => none
    | some t' => createAll t' ns

/-- Embedding of `missing_styles = [s for s in self.required_styles if s not in
existing_styles]` (line 92). -/
def missingOf (required : List String) (t : Template) : List String :=
  required.filter (fun s => !(getAllStyles t).contains s)

/-- The style-catalog effect of `ensure_styles_exist` (lines 79-108):
compute the missing styles against the existing catalog and create each
of them in the loaded document. -/
def ensureStylesCore (required : List String) (t : Template) :
    Option Template :=
  createAll t (missingOf required t)

/-! ### The saved-template path (`ensure_styles_exist` lines 102-108) -/

/-- Whether the (non-empty) pattern occurs as a contiguous subsequence. -/
def occursIn (pat : List Char) : List Char → Bool
  | [] => pat.isEmpty
  | x :: xs => pat.isPrefixOf (x :: xs) || occursIn pat xs

/-- Fueled Python `str.replace(pat, repl)` for a non-empty pattern:
replace every leftmost non-overlapping occurrence.  With fuel at least
`s.length` the fuel never runs out. -/
def pyReplaceF (pat repl : List Char) : Nat → List Char → List Char
  | 0, s => s
  | _ + 1, [] => []
  | fuel + 1, x :: xs =>
    if pat ≠ [] ∧ pat.isPrefixOf (x :: xs) then
      repl ++ pyReplaceF pat repl fuel ((x :: xs).drop pat.length)
    else x :: pyReplaceF pat repl fuel xs

/-- Python `str.replace(pat, repl)`. -/
def pyReplace (pat repl s : List Char) : List Char :=
  pyReplaceF pat repl s.length s

/-- Line 104: `template_path.replace(".dotx",
"_updated.dotx").replace(".dotm", "_updated.dotm")` — the path the
updated template is saved to and returned as. -/
def updatedTemplatePath (p : String) : String :=
  ⟨pyReplace ".dotm".data "_updated.dotm".data
    (pyReplace ".dotx".data "_updated.dotx".data p.data)⟩

/-- Embedding of `doc.save(path)` over a path-indexed file-system model. -/
def saveAt (fs : String → Option Template) (path : String) (t : Template) :
    String → Option Template :=
  fun q => if q = path then some t else fs q

/-- Embedding of `ensure_styles_exist` including its save step (lines 102-108): on
success, returns the path written to and the updated file system. -/
def ensureStylesExist (required : List String) (t : Template)
    (templatePath : String) (fs : String → Option Template) :
    Option (String × (String → Option Template)) :=
  match ensureStylesCore required t with
  | none => none
  | some t' =>
    some (updatedTemplatePath templatePath,
      saveAt fs (updatedTemplatePath templatePath) t')

/-! ### Specification-side and auxiliary definitions -/

/-- Modelled from the spec's words for the front-matter scan ("only lines
strictly between the first front-matter delimiter line and the second one
are collected"): the stripped lines strictly between the first `---` line
and the next one. -/
def specFirstBlock (lines : List String) : List String :=
  ((((lines.map pyStrip).dropWhile (· ≠ "---")).drop 1).takeWhile (· ≠ "---"))

/-- Segment the (already stripped) line sequence at every `---` line. -/
def segsOf : List String → List (List String)
  | [] => [[]]
  | l :: rest =>
    if l = "---" then [] :: segsOf rest
    else
      match segsOf rest with
      | s :: ss => (l :: s) :: ss
      | [] => [[l]]

/-- Concatenate alternating segments, starting inside (`true`) or outside
(`false`) a collected region. -/
def joinAlt : Bool → List (List String) → List String
  | _, [] => []
  | b, s :: rest => (if b then s else []) ++ joinAlt (!b) rest

/-- A concrete stand-in for the PyYAML loader on the inputs used below:
`yaml.safe_load("")` returns `None` (the empty document), everything else
is treated as a parse error. -/
def yamlNullOnEmpty : String → YamlResult :=
  fun s => if s = "" then .value .vnull else .parseError

/-- A concrete stand-in for the PyYAML loader that parses the single
front-matter document `Title: X` to the singleton mapping. -/
def yamlTitleX : String → YamlResult :=
  fun s => if s = "Title: X" then .value (.vmap [("Title", "X")]) else .parseError

/-- A document with no body paragraphs and empty properties (the body the
converter emits into). -/
def emptyDoc : Doc := ⟨[], [], "", "", "", ""⟩

/-- Whether no line of the input would be classified as plain body text
before the first heading line: every earlier non-blank line is a heading,
list item, quote or inline-code line.  Under this condition the scan
result does not depend on the incoming `current_level`. -/
def noBodyBeforeHeading : List String → Bool
  | [] => true
  | l :: rest =>
    let s := pyStrip l
    if s.data.isEmpty then noBodyBeforeHeading rest
    else if isHeadingLine s then true
    else if isBulletLine s then noBodyBeforeHeading rest
    else if isOrderedLine s then noBodyBeforeHeading rest
    else if isQuoteLine s then noBodyBeforeHeading rest
    else if hasCodeSpan s.data then noBodyBeforeHeading rest
    else false

/-- The style-name families `_create_style` synthesizes (its `if`/`elif`
chain succeeds and adds a style exactly for these names). -/
def createsStyleB (name : String) : Bool :=
  if pyStartsWith name "Heading" then (parseHeadingLevel name).isSome
  else if pyStartsWith name "Body Text" then true
  else name = "Quote" || name = "List Bullet" || name = "List Number" || name = "Code"

/-! ## General helper lemmas -/

theorem prefixOf_length_le : ∀ {l s : List Char}, l.isPrefixOf s = true → l.length ≤ s.length
  | [], _, _ => Nat.zero_le _
  | _ :: _, [], h => by simp [List.isPrefixOf] at h
  | a :: l, b :: s, h => by
    simp only [List.isPrefixOf, Bool.and_eq_true, beq_iff_eq] at h
    simpa using Nat.succ_le_succ (prefixOf_length_le h.2)

theorem prefixOf_eq_append : ∀ {l s : List Char}, l.isPrefixOf s = true →
    s = l ++ s.drop l.length
  | [], s, _ => by simp
  | _ :: _, [], h => by simp [List.isPrefixOf] at h
  | a :: l, b :: s, h => by
    simp only [List.isPrefixOf, Bool.and_eq_true, beq_iff_eq] at h
    simpa [h.1] using congrArg (b :: ·) (prefixOf_eq_append h.2)

theorem prefixOf_append_ext : ∀ {l m : List Char} (r : List Char),
    l.isPrefixOf m = true → l.isPrefixOf (m ++ r) = true
  | [], _, _, _ => by simp [List.isPrefixOf]
  | _ :: _, [], _, h => by simp [List.isPrefixOf] at h
  | a :: l, b :: m, r, h => by
    simp only [List.isPrefixOf, Bool.and_eq_true, beq_iff_eq] at h ⊢
    exact ⟨h.1, prefixOf_append_ext r h.2⟩

/-! ## C2 and C3: title detection -/

/-- C2 counterexample: on `["intro", "T", "====", "body"]` the detector
fires at the pair (`"T"`, `"===="`) but returns only the suffix after the
underline — the earlier line `"intro"` is discarded, contradicting the
claim that exactly the two matched lines are excluded and all other lines
are kept. -/
theorem detectGo_drops_earlier_lines :
    detectGo ["intro", "T", "====", "body"] = (some "T", ["body"]) ∧
      "intro" ∉ (detectGo ["intro", "T", "====", "body"]).2 := by
  decide

/-- C2 (amended): the detector fires at the first index `i` whose
following line, stripped, starts with `=` and has length at least 3 (the
line above may be blank and the underline need not consist only of `=`);
it then assigns the stripped line `i` as the title and returns the raw
suffix starting at index `i + 2`, discarding the lines before index `i`
as well. -/
theorem detectGo_first_fire (lines : List String) (i : Nat)
    (h1 : i + 1 < lines.length)
    (h2 : underlineFires (pyStrip lines[i + 1]) = true)
    (h3 : ∀ j, (hj : j + 1 < lines.length) → j < i →
      underlineFires (pyStrip lines[j + 1]) = false) :
    detectGo lines = (some (pyStrip lines[i]), lines.drop (i + 2)) := by
  induction lines generalizing i with
  | nil => simp at h1
  | cons a rest ih =>
    match rest, h1 with
    | b :: rest', h1 =>
      cases i with
      | zero =>
        simp only [List.getElem_cons_succ, List.getElem_cons_zero] at h2
        simp [detectGo, h2]
      | succ i' =>
        have hb : underlineFires (pyStrip b) = false := by
          have := h3 0 (by simp) (Nat.succ_pos i')
          simpa using this
        have h1' : i' + 1 < (b :: rest').length := by
          simpa using Nat.lt_of_succ_lt_succ h1
        have h2' : underlineFires (pyStrip (b :: rest')[i' + 1]) = true := by
          simpa using h2
        have h3' : ∀ j, (hj : j + 1 < (b :: rest').length) → j < i' →
            underlineFires (pyStrip (b :: rest')[j + 1]) = false := by
          intro j hj hji
          have := h3 (j + 1) (by simpa using Nat.succ_lt_succ hj) (Nat.succ_lt_succ hji)
          simpa using this
        have ihr := ih i' h1' h2' h3'
        simp only [detectGo, hb, Bool.false_eq_true, if_false, ihr]
        simp

/-- C3 counterexample: with no underline pair in `["a ", "b"]` the
detector does not return the input unchanged — it returns the single
stripped line `["a"]`: the lines are stripped and the final line is
dropped, contradicting "same lines, same count, same text". -/
theorem detectGo_not_identity :
    (detectGo ["a ", "b"]).1 = none ∧ (detectGo ["a ", "b"]).2 ≠ ["a ", "b"] := by
  decide

/-- C3 (amended): when no line pair fires, the detector returns the
metadata unchanged (Title stays the sentinel) together with the stripped
text of every line except the last, which is always dropped. -/
theorem detectGo_no_fire (lines : List String)
    (h : ∀ j, (hj : j + 1 < lines.length) →
      underlineFires (pyStrip lines[j + 1]) = false) :
    detectGo lines = (none, lines.dropLast.map pyStrip) := by
  induction lines with
  | nil => simp [detectGo]
  | cons a rest ih =>
    cases rest with
    | nil => simp [detectGo]
    | cons b rest' =>
      have hb : underlineFires (pyStrip b) = false := by
        have := h 0 (by simp)
        simpa using this
      have h' : ∀ j, (hj : j + 1 < (b :: rest').length) →
          underlineFires (pyStrip (b :: rest')[j + 1]) = false := by
        intro j hj
        have := h (j + 1) (by simpa using Nat.succ_lt_succ hj)
        simpa using this
      simp only [detectGo, hb, Bool.false_eq_true, if_false, ih h']
      simp

/-- Witness for C2's theorem at the input `["T", "==="]`. -/
theorem detectGo_first_fire_witness :
    detectGo ["T", "==="] = (some (pyStrip "T"), List.drop 2 ["T", "==="]) := by
  have h := detectGo_first_fire ["T", "==="] 0 (by decide) (by decide)
    (fun j hj hji => absurd hji (Nat.not_lt_zero j))
  simpa using h

/-- Witness for C3's theorem at the input `["a ", "b"]`. -/
theorem detectGo_no_fire_witness :
    detectGo ["a ", "b"] = (none, (["a ", "b"].dropLast).map pyStrip) := by
  apply detectGo_no_fire
  intro j hj
  have hj2 : j = 0 := by simp at hj; omega
  subst hj2
  simp only [List.getElem_cons_succ, List.getElem_cons_zero]
  decide

/-! ## C4: front-matter collection -/

theorem segsOf_ne_nil : ∀ ls : List String, segsOf ls ≠ []
  | [] => by simp [segsOf]
  | l :: rest => by
    simp only [segsOf]
    split
    · simp
    · split
      · simp
      · simp

/-- C4 counterexample: the line `b: 2`, which lies after the third
delimiter line (outside the first bracketed region), is nevertheless
collected into the front-matter content, while the spec-modelled
first-region scan does not contain it. -/
theorem collectYaml_beyond_first_block :
    "b: 2" ∈ collectYaml false ["---", "a: 1", "---", "x", "---", "b: 2"] ∧
      "b: 2" ∉ specFirstBlock ["---", "a: 1", "---", "x", "---", "b: 2"] := by
  decide

theorem collectYaml_joinAlt_aux :
    ∀ (lines : List String) (flag : Bool),
      collectYaml flag lines = joinAlt flag (segsOf (lines.map pyStrip)) := by
  intro lines
  induction lines with
  | nil => intro flag; cases flag <;> simp [collectYaml, segsOf, joinAlt]
  | cons l rest ih =>
    intro flag
    by_cases hd : pyStrip l = "---"
    · cases flag <;>
        simp [collectYaml, segsOf, hd, joinAlt, ih]
    · obtain ⟨s0, ss, hs⟩ : ∃ s0 ss, segsOf (rest.map pyStrip) = s0 :: ss := by
        cases h : segsOf (rest.map pyStrip) with
        | nil => exact absurd h (segsOf_ne_nil _)
        | cons s0 ss => exact ⟨s0, ss, rfl⟩
      cases flag <;>
        simp [collectYaml, segsOf, hd, joinAlt, ih, hs]

/-- C4 (amended): delimiter lines toggle collection, so the collected
front-matter content is the concatenation of the 2nd, 4th, 6th, ...
segments obtained by splitting the stripped line sequence at every
delimiter line — content after any odd-numbered delimiter, not only the
first, is scanned into the metadata. -/
theorem collectYaml_alternating (lines : List String) :
    collectYaml false lines = joinAlt false (segsOf (lines.map pyStrip)) :=
  collectYaml_joinAlt_aux lines false

/-! ## C5: metadata extraction -/

theorem dictGet_dictSet_self : ∀ (m : Meta) (k v : String),
    dictGet (dictSet m k v) k = some v
  | [], k, v => by simp [dictSet, dictGet, List.lookup]
  | (k', v') :: rest, k, v => by
    by_cases h : k' = k
    · simp [dictSet, dictGet, List.lookup, h]
    · simp only [dictSet, if_neg h]
      have hne : (k == k') = false := by
        simp [beq_iff_eq]; exact fun e => h e.symm
      simpa [dictGet, List.lookup, hne] using dictGet_dictSet_self rest k v

theorem dictGet_dictSet_ne : ∀ (m : Meta) (k k' v : String), k' ≠ k →
    dictGet (dictSet m k v) k' = dictGet m k'
  | [], k, k', v, h => by
    have hne : (k' == k) = false := by simpa using h
    simp [dictSet, dictGet, List.lookup, hne]
  | (k0, v0) :: rest, k, k', v, h => by
    by_cases h0 : k0 = k
    · subst h0
      have hne : (k' == k0) = false := by simpa using h
      simp [dictSet, dictGet, List.lookup, hne]
    · simp only [dictSet, if_neg h0]
      by_cases h1 : (k' == k0) = true
      · simp [dictGet, List.lookup, h1]
      · have h1f : (k' == k0) = false := by simpa using h1
        simpa [dictGet, List.lookup, h1f] using dictGet_dictSet_ne rest k k' v h

theorem dictGet_foldl_dictSet :
    ∀ (kvs : List (String × String)) (d : Meta) (k : String),
      dictGet (kvs.foldl (fun m kv => dictSet m kv.1 kv.2) d) k = dictGet d k ∨
      ∃ v, dictGet (kvs.foldl (fun m kv => dictSet m kv.1 kv.2) d) k = some v ∧
        (k, v) ∈ kvs
  | [], d, k => Or.inl rfl
  | (k0, v0) :: rest, d, k => by
    simp only [List.foldl_cons]
    rcases dictGet_foldl_dictSet rest (dictSet d k0 v0) k with h | ⟨v, hv, hm⟩
    · by_cases hk : k = k0
      · subst hk
        exact Or.inr ⟨v0, by rw [h, dictGet_dictSet_self], by simp⟩
      · exact Or.inl (by rw [h, dictGet_dictSet_ne _ _ _ _ hk])
    · exact Or.inr ⟨v, hv, List.mem_cons_of_mem _ hm⟩

/-- C5 counterexample: on the input `["---", "", "---"]` the collected
front-matter content is the single empty line, `yaml.safe_load` of the
empty document yields `None`, and the update loop of
`_extract_metadata` then raises an uncaught `TypeError` (`None` is not
iterable): extraction does not return a metadata map and the conversion
aborts rather than proceeding. -/
theorem extractMetadata_aborts_on_null :
    extractMetadata yamlNullOnEmpty ["---", "", "---"] = .error () := by
  rfl

/-- C5 (amended): whenever extraction does return a map, that map has all
seven recognized fields, each holding either the sentinel or a
front-matter value; a `YAMLError` from the loader is caught and leaves all
defaults in place (the conversion proceeds); but front matter that parses
to `None` raises an uncaught error and aborts the conversion. -/
theorem extractMetadata_fields (p : String → YamlResult) (lines : List String) :
    (∀ m, extractMetadata p lines = .ok m →
      ∀ k ∈ ["Title", "Document ID", "Facility", "Version", "Category",
             "Content", "Author"],
        ∃ v, dictGet m k = some v ∧
          (v = sentinel ∨ ∃ kvs,
            p (joinNl (collectYaml false lines)) = .value (.vmap kvs) ∧
            (k, v) ∈ kvs)) ∧
    (p (joinNl (collectYaml false lines)) = .parseError →
      extractMetadata p lines = .ok defaultMeta) ∧
    ((collectYaml false lines).isEmpty = false →
      p (joinNl (collectYaml false lines)) = .value .vnull →
      extractMetadata p lines = .error ()) := by
  have hdef : ∀ k ∈ ["Title", "Document ID", "Facility", "Version",
      "Category", "Content", "Author"], dictGet defaultMeta k = some sentinel := by
    decide
  refine ⟨?_, ?_, ?_⟩
  · intro m hm k hk
    unfold extractMetadata at hm
    by_cases hc : (collectYaml false lines).isEmpty
    · rw [if_pos hc] at hm
      cases hm
      exact ⟨sentinel, hdef k hk, Or.inl rfl⟩
    · rw [if_neg hc] at hm
      split at hm
      · cases hm
        exact ⟨sentinel, hdef k hk, Or.inl rfl⟩
      · next kvs heq =>
        cases hm
        rcases dictGet_foldl_dictSet kvs defaultMeta k with h | ⟨v, hv, hmem⟩
        · exact ⟨sentinel, by rw [h]; exact hdef k hk, Or.inl rfl⟩
        · exact ⟨v, hv, Or.inr ⟨kvs, heq, hmem⟩⟩
      · cases hm
      · cases hm
      · split at hm
        · cases hm
          exact ⟨sentinel, hdef k hk, Or.inl rfl⟩
        · cases hm
  · intro hp
    unfold extractMetadata
    by_cases hc : (collectYaml false lines).isEmpty
    · rw [if_pos hc]
    · rw [if_neg hc, hp]
  · intro hc hp
    unfold extractMetadata
    rw [if_neg (by simp [hc]), hp]

/-- Witness for C5's theorem: a mapping `Title: X` overrides the Title
field, and a loader parse error leaves the full default map. -/
theorem extractMetadata_fields_witness :
    (∃ v, dictGet (dictSet defaultMeta "Title" "X") "Title" = some v ∧
      (v = sentinel ∨ ∃ kvs,
        yamlTitleX (joinNl (collectYaml false ["---", "Title: X", "---"])) =
          .value (.vmap kvs) ∧ ("Title", v) ∈ kvs)) ∧
    extractMetadata (fun _ => .parseError) ["---", "x", "---"] = .ok defaultMeta := by
  constructor
  · exact (extractMetadata_fields yamlTitleX ["---", "Title: X", "---"]).1
      (dictSet defaultMeta "Title" "X") rfl "Title" (by decide)
  · exact (extractMetadata_fields (fun _ => .parseError) ["---", "x", "---"]).2.1 rfl

/-! ## C6: re-scanning on the same detector instance -/

/-- C6 counterexample: on `["para", "## H", "x"]` the first scan (entry
level 1) requires `Body Text 1`, but the second scan on the same instance
starts from the leftover `current_level = 2` and classifies the leading
paragraph as `Body Text 2` — the two required-style sets differ, so the
scan is not idempotent on one detector instance. -/
theorem scan_rescan_differs :
    "Body Text 1" ∈ (scanStyles 1 ["para", "## H", "x"]).1 ∧
      "Body Text 1" ∉
        (scanStyles (scanStyles 1 ["para", "## H", "x"]).2
          ["para", "## H", "x"]).1 := by
  decide

theorem scanGo_level_indep :
    ∀ (lines : List String) (acc : List String) (a b : Nat),
      noBodyBeforeHeading lines = true →
      (scanGo (acc, a) lines).1 = (scanGo (acc, b) lines).1 := by
  intro lines
  induction lines with
  | nil => intro acc a b _; rfl
  | cons l rest ih =>
    intro acc a b h
    simp only [noBodyBeforeHeading] at h
    simp only [scanGo]
    by_cases h1 : (pyStrip l).data.isEmpty
    · simp only [h1, if_true] at h ⊢
      exact ih acc a b h
    · simp only [h1, Bool.false_eq_true, if_false] at h ⊢
      by_cases h2 : isHeadingLine (pyStrip l)
      · simp only [h2, if_true]
      · simp only [h2, Bool.false_eq_true, if_false] at h ⊢
        by_cases h3 : isBulletLine (pyStrip l)
        · simp only [h3, if_true] at h ⊢
          exact ih _ a b h
        · simp only [h3, Bool.false_eq_true, if_false] at h ⊢
          by_cases h4 : isOrderedLine (pyStrip l)
          · simp only [h4, if_true] at h ⊢
            exact ih _ a b h
          · simp only [h4, Bool.false_eq_true, if_false] at h ⊢
            by_cases h5 : isQuoteLine (pyStrip l)
            · simp only [h5, if_true] at h ⊢
              exact ih _ a b h
            · simp only [h5, Bool.false_eq_true, if_false] at h ⊢
              by_cases h6 : hasCodeSpan (pyStrip l).data
              · simp only [h6, if_true] at h ⊢
                exact ih _ a b h
              · simp only [h6, Bool.false_eq_true, if_false] at h

/-- C6 (amended): re-scanning the same input on the same detector
instance yields the same required-style set whenever no line would be
classified as plain body text before the first heading line (in
particular whenever the input starts with a heading); in general the
leftover `current_level` of the first scan can change how body lines
before the first heading are classified. -/
theorem scan_rescan_same (lines : List String) (h : noBodyBeforeHeading lines = true) :
    (scanStyles (scanStyles 1 lines).2 lines).1 = (scanStyles 1 lines).1 :=
  scanGo_level_indep lines [] (scanStyles 1 lines).2 1 h

/-- Witness for C6's theorem at the input `["# h", "x"]`. -/
theorem scan_rescan_same_witness :
    (scanStyles (scanStyles 1 ["# h", "x"]).2 ["# h", "x"]).1 =
      (scanStyles 1 ["# h", "x"]).1 :=
  scan_rescan_same ["# h", "x"] (by decide)

/-! ## C7: style reconciliation -/

theorem setAdd_forall {P : String → Prop} {acc : List String} {x : String}
    (hacc : ∀ s ∈ acc, P s) (hx : P x) : ∀ s ∈ setAdd acc x, P s := by
  intro s hs
  unfold setAdd at hs
  split at hs
  · exact hacc s hs
  · rcases List.mem_append.1 hs with h | h
    · exact hacc s h
    · rcases List.mem_singleton.1 h with rfl
      exact hx

theorem headingLevel_pos {s : String} (h : isHeadingLine s = true) :
    1 ≤ headingLevel s := by
  unfold isHeadingLine at h
  split at h
  · next heq =>
    unfold headingLevel
    rw [heq]
    simp [leadHashes]
  · cases h

theorem createsB_heading (k : Nat) (h1 : 1 ≤ k) (h2 : k ≤ 6) :
    createsStyleB ("Heading " ++ toString k) = true := by
  interval_cases k <;> decide

theorem createsB_bodyText (n : Nat) :
    createsStyleB ("Body Text " ++ toString n) = true := by
  unfold createsStyleB
  have hH : pyStartsWith ("Body Text " ++ toString n) "Heading" = false := by
    unfold pyStartsWith
    rw [String.data_append]
    show List.isPrefixOf ('H' :: _) ('B' :: _) = false
    simp [List.isPrefixOf]
  have hB : pyStartsWith ("Body Text " ++ toString n) "Body Text" = true := by
    unfold pyStartsWith
    rw [String.data_append]
    exact prefixOf_append_ext _ (by decide)
  rw [hH, hB]
  simp

theorem scanGo_createsAll :
    ∀ (lines : List String) (acc : List String) (lvl : Nat),
      (∀ s ∈ acc, createsStyleB s = true) →
      ∀ s ∈ (scanGo (acc, lvl) lines).1, createsStyleB s = true := by
  intro lines
  induction lines with
  | nil => intro acc lvl hacc; exact hacc
  | cons l rest ih =>
    intro acc lvl hacc
    simp only [scanGo]
    by_cases h1 : (pyStrip l).data.isEmpty
    · simp only [h1, if_true]
      exact ih acc lvl hacc
    · simp only [h1, Bool.false_eq_true, if_false]
      by_cases h2 : isHeadingLine (pyStrip l)
      · simp only [h2, if_true]
        refine ih _ _ (setAdd_forall hacc ?_)
        exact createsB_heading _ (headingLevel_pos h2) (Nat.min_le_right _ 6)
      · simp only [h2, Bool.false_eq_true, if_false]
        by_cases h3 : isBulletLine (pyStrip l)
        · simp only [h3, if_true]
          exact ih _ _ (setAdd_forall hacc (by decide))
        · simp only [h3, Bool.false_eq_true, if_false]
          by_cases h4 : isOrderedLine (pyStrip l)
          · simp only [h4, if_true]
            exact ih _ _ (setAdd_forall hacc (by decide))
          · simp only [h4, Bool.false_eq_true, if_false]
            by_cases h5 : isQuoteLine (pyStrip l)
            · simp only [h5, if_true]
              exact ih _ _ (setAdd_forall hacc (by decide))
            · simp only [h5, Bool.false_eq_true, if_false]
              by_cases h6 : hasCodeSpan (pyStrip l).data
              · simp only [h6, if_true]
                exact ih _ _ (setAdd_forall hacc (by decide))
              · simp only [h6, Bool.false_eq_true, if_false]
                exact ih _ _ (setAdd_forall hacc (createsB_bodyText lvl))

theorem createStyle_creates {n : String} (t : Template)
    (h : createsStyleB n = true) : createStyle t n = some (addStyle t n) := by
  unfold createsStyleB at h
  unfold createStyle
  by_cases hH : pyStartsWith n "Heading" = true
  · rw [if_pos hH] at h
    rw [if_pos hH]
    cases hp : parseHeadingLevel n with
    | none => rw [hp] at h; simp at h
    | some lvl => rfl
  · rw [if_neg hH] at h
    rw [if_neg hH]
    by_cases hB : pyStartsWith n "Body Text" = true
    · rw [if_pos hB]
    · rw [if_neg hB] at h
      rw [if_neg hB]
      simp only [Bool.or_eq_true, decide_eq_true_eq] at h
      rcases h with ((h | h) | h) | h <;> (subst h; rfl)

theorem createAll_spec :
    ∀ (ns : List String) (t : Template),
      (∀ n ∈ ns, createsStyleB n = true) →
      createAll t ns = some { t with styles := t.styles ++ ns } := by
  intro ns
  induction ns with
  | nil => intro t _; simp [createAll]
  | cons n rest ih =>
    intro t h
    have hn : createsStyleB n = true := h n (by simp)
    have hrest : ∀ x ∈ rest, createsStyleB x = true :=
      fun x hx => h x (List.mem_cons_of_mem _ hx)
    simp only [createAll, createStyle_creates t hn]
    rw [ih (addStyle t n) hrest]
    simp [addStyle]

theorem missingOf_eq_nil {req : List String} {t : Template}
    (h : ∀ s ∈ req, s ∈ getAllStyles t) : missingOf req t = [] := by
  unfold missingOf
  rw [List.filter_eq_nil_iff]
  intro s hs
  simp [List.contains, List.elem_eq_mem, h s hs]

/-- C7: after reconciliation every scanner-required style name is present
in the returned template's catalog, and recomputing the missing set
against the returned template yields the empty list. -/
theorem ensure_styles_complete (lvl : Nat) (lines : List String) (t : Template) :
    ∃ t', ensureStylesCore (scanStyles lvl lines).1 t = some t' ∧
      (∀ s ∈ (scanStyles lvl lines).1, s ∈ getAllStyles t') ∧
      missingOf (scanStyles lvl lines).1 t' = [] := by
  have hreq : ∀ s ∈ (scanStyles lvl lines).1, createsStyleB s = true :=
    scanGo_createsAll lines [] lvl (by simp)
  have hmiss : ∀ n ∈ missingOf (scanStyles lvl lines).1 t, createsStyleB n = true :=
    fun n hn => hreq n (List.mem_of_mem_filter hn)
  have hmem : ∀ s ∈ (scanStyles lvl lines).1,
      s ∈ getAllStyles { t with styles := t.styles ++ missingOf (scanStyles lvl lines).1 t } := by
    intro s hs
    simp only [getAllStyles, List.mem_append]
    by_cases hin : s ∈ getAllStyles t
    · simp only [getAllStyles, List.mem_append] at hin
      tauto
    · left; right
      simp only [missingOf, List.mem_filter]
      refine ⟨hs, ?_⟩
      simp [List.contains, List.elem_eq_mem, hin]
  exact ⟨_, createAll_spec _ t hmiss, hmem, missingOf_eq_nil hmem⟩

/-! ## C8: the saved-template path -/

theorem pyReplaceF_length_ge (pat repl : List Char) (hlen : pat.length ≤ repl.length) :
    ∀ (fuel : Nat) (s : List Char), s.length ≤ (pyReplaceF pat repl fuel s).length := by
  intro fuel
  induction fuel with
  | zero => intro s; simp [pyReplaceF]
  | succ fuel ih =>
    intro s
    cases s with
    | nil => simp [pyReplaceF]
    | cons x xs =>
      by_cases hc : pat ≠ [] ∧ pat.isPrefixOf (x :: xs) = true
      · rw [pyReplaceF, if_pos hc]
        have hp : pat.length ≤ (x :: xs).length := prefixOf_length_le hc.2
        have := ih ((x :: xs).drop pat.length)
        simp only [List.length_append, List.length_drop] at this ⊢
        omega
      · rw [pyReplaceF, if_neg hc]
        have := ih xs
        simp only [List.length_cons] at this ⊢
        omega

theorem pyReplaceF_no_occur (pat repl : List Char) :
    ∀ (fuel : Nat) (s : List Char), occursIn pat s = false →
      pyReplaceF pat repl fuel s = s := by
  intro fuel
  induction fuel with
  | zero => intro s _; simp [pyReplaceF]
  | succ fuel ih =>
    intro s hocc
    cases s with
    | nil => simp [pyReplaceF]
    | cons x xs =>
      simp only [occursIn, Bool.or_eq_false_iff] at hocc
      rw [pyReplaceF, if_neg (fun hc => by simp [hc.2] at hocc)]
      rw [ih xs hocc.2]

theorem pyReplaceF_length_gt (pat repl : List Char) (hpat : pat ≠ [])
    (hlen : pat.length < repl.length) :
    ∀ (fuel : Nat) (s : List Char), s.length ≤ fuel → occursIn pat s = true →
      s.length < (pyReplaceF pat repl fuel s).length := by
  intro fuel
  induction fuel with
  | zero =>
    intro s hf hocc
    have hs : s = [] := List.length_eq_zero.1 (Nat.le_zero.1 hf)
    subst hs
    simp only [occursIn, List.isEmpty_iff] at hocc
    exact absurd hocc hpat
  | succ fuel ih =>
    intro s hf hocc
    cases s with
    | nil =>
      simp only [occursIn, List.isEmpty_iff] at hocc
      exact absurd hocc hpat
    | cons x xs =>
      by_cases hc : pat ≠ [] ∧ pat.isPrefixOf (x :: xs) = true
      · rw [pyReplaceF, if_pos hc]
        have hp : pat.length ≤ (x :: xs).length := prefixOf_length_le hc.2
        have hge := pyReplaceF_length_ge pat repl (Nat.le_of_lt hlen) fuel
          ((x :: xs).drop pat.length)
        simp only [List.length_append, List.length_drop] at hge ⊢
        omega
      · have hpre : pat.isPrefixOf (x :: xs) = false := by
          cases hb : pat.isPrefixOf (x :: xs) with
          | false => rfl
          | true => exact absurd ⟨hpat, hb⟩ hc
        rw [pyReplaceF, if_neg hc]
        simp only [occursIn, hpre, Bool.false_or] at hocc
        have := ih xs (by simpa using Nat.le_of_succ_le_succ hf) hocc
        simp only [List.length_cons]
        omega

/-- C8 counterexample: `ensure_styles_exist` computes the save path with
`path.replace(".dotx", ...).replace(".dotm", ...)`; for a template whose
path ends in `.docx` neither replacement applies, the "new" path equals
the original path, and saving writes over the caller-supplied template
file in place. -/
theorem template_saved_in_place :
    updatedTemplatePath "Template.docx" = "Template.docx" ∧
      saveAt (fun _ => none) (updatedTemplatePath "Template.docx")
        ⟨["Normal"], []⟩ "Template.docx" = some ⟨["Normal"], []⟩ := by
  constructor
  · rfl
  · rfl

/-- C8 (amended): the rewritten save path differs from the original path
— so the original template file is left untouched by the save — exactly
when the original path contains `.dotx` or `.dotm`; for any other
template path (such as the `.docx` templates the application selects) the
save targets the original path itself. -/
theorem template_save_fresh (p : String)
    (h : (occursIn ".dotx".data p.data || occursIn ".dotm".data p.data) = true) :
    updatedTemplatePath p ≠ p ∧
      ∀ (fs : String → Option Template) (t : Template),
        saveAt fs (updatedTemplatePath p) t p = fs p := by
  have hlen : p.data.length <
      (pyReplace ".dotm".data "_updated.dotm".data
        (pyReplace ".dotx".data "_updated.dotx".data p.data)).length := by
    unfold pyReplace
    simp only [Bool.or_eq_true] at h
    rcases h with h | h
    · have h1 := pyReplaceF_length_gt ".dotx".data "_updated.dotx".data
        (by decide) (by decide) p.data.length p.data le_rfl h
      have h2 := pyReplaceF_length_ge ".dotm".data "_updated.dotm".data
        (by decide)
        (pyReplaceF ".dotx".data "_updated.dotx".data p.data.length p.data).length
        (pyReplaceF ".dotx".data "_updated.dotx".data p.data.length p.data)
      omega
    · by_cases hx : occursIn ".dotx".data p.data = true
      · have h1 := pyReplaceF_length_gt ".dotx".data "_updated.dotx".data
          (by decide) (by decide) p.data.length p.data le_rfl hx
        have h2 := pyReplaceF_length_ge ".dotm".data "_updated.dotm".data
          (by decide)
          (pyReplaceF ".dotx".data "_updated.dotx".data p.data.length p.data).length
          (pyReplaceF ".dotx".data "_updated.dotx".data p.data.length p.data)
        omega
      · have hx' : occursIn ".dotx".data p.data = false := by simpa using hx
        rw [pyReplaceF_no_occur _ _ _ _ hx']
        exact pyReplaceF_length_gt ".dotm".data "_updated.dotm".data
          (by decide) (by decide) p.data.length p.data le_rfl h
  have hne : updatedTemplatePath p ≠ p := by
    intro he
    have hd : pyReplace ".dotm".data "_updated.dotm".data
        (pyReplace ".dotx".data "_updated.dotx".data p.data) = p.data :=
      congrArg String.data he
    have := congrArg List.length hd
    omega
  refine ⟨hne, ?_⟩
  intro fs t
  unfold saveAt
  rw [if_neg (fun he => hne he.symm)]

/-- Witness for C8's theorem at the path `T.dotx`. -/
theorem template_save_fresh_witness :
    updatedTemplatePath "T.dotx" ≠ "T.dotx" ∧
      saveAt (fun _ => none) (updatedTemplatePath "T.dotx") ⟨[], []⟩ "T.dotx" = none := by
  have h := template_save_fresh "T.dotx" (by decide)
  exact ⟨h.1, h.2 (fun _ => none) ⟨[], []⟩⟩

/-! ## C9: list-marker lines -/

theorem setAdd_mem_of_mem {acc : List String} {x y : String} (h : x ∈ acc) :
    x ∈ setAdd acc y := by
  unfold setAdd
  split
  · exact h
  · exact List.mem_append_left _ h

theorem scanGo_mem_mono :
    ∀ (lines : List String) (acc : List String) (lvl : Nat) (x : String),
      x ∈ acc → x ∈ (scanGo (acc, lvl) lines).1 := by
  intro lines
  induction lines with
  | nil => intro acc lvl x hx; exact hx
  | cons l rest ih =>
    intro acc lvl x hx
    simp only [scanGo]
    split
    · exact ih acc lvl x hx
    · split
      · exact ih _ _ x (setAdd_mem_of_mem hx)
      · split
        · exact ih _ _ x (setAdd_mem_of_mem hx)
        · split
          · exact ih _ _ x (setAdd_mem_of_mem hx)
          · split
            · exact ih _ _ x (setAdd_mem_of_mem hx)
            · split
              · exact ih _ _ x (setAdd_mem_of_mem hx)
              · exact ih _ _ x (setAdd_mem_of_mem hx)

theorem setAdd_mem_self (acc : List String) (x : String) : x ∈ setAdd acc x := by
  unfold setAdd
  split
  · next hx => exact hx
  · simp

theorem bullet_not_blank {s : String} (h : isBulletLine s = true) :
    s.data.isEmpty = false := by
  unfold isBulletLine at h
  cases hd : s.data with
  | nil => simp [hd] at h
  | cons c r => rfl

theorem bullet_not_heading {s : String} (h : isBulletLine s = true) :
    isHeadingLine s = false := by
  unfold isBulletLine at h
  unfold isHeadingLine
  cases hd : s.data with
  | nil => simp [hd] at h
  | cons c r =>
    rw [hd] at h
    cases r with
    | nil => simp at h
    | cons d r' =>
      simp only [Bool.and_eq_true, Bool.or_eq_true, decide_eq_true_eq] at h
      rcases h.1 with (rfl | rfl) | rfl <;> rfl

theorem ordered_not_blank {s : String} (h : isOrderedLine s = true) :
    s.data.isEmpty = false := by
  unfold isOrderedLine at h
  cases hd : s.data with
  | nil => simp [hd] at h
  | cons c r => rfl

theorem ordered_not_heading {s : String} (h : isOrderedLine s = true) :
    isHeadingLine s = false := by
  unfold isOrderedLine at h
  unfold isHeadingLine
  cases hd : s.data with
  | nil => rfl
  | cons c r =>
    rw [hd] at h
    have hdig : c.isDigit = true := by
      by_contra hcd
      rw [Bool.not_eq_true] at hcd
      simp [List.takeWhile_cons, hcd] at h
    split
    · next heq =>
      injection heq with h1 h2
      subst h1
      exact absurd hdig (by decide)
    · rfl

theorem ordered_not_bullet {s : String} (h : isOrderedLine s = true) :
    isBulletLine s = false := by
  unfold isOrderedLine at h
  unfold isBulletLine
  cases hd : s.data with
  | nil => rfl
  | cons c r =>
    rw [hd] at h
    have hdig : c.isDigit = true := by
      by_contra hcd
      rw [Bool.not_eq_true] at hcd
      simp [List.takeWhile_cons, hcd] at h
    cases r with
    | nil => rfl
    | cons d r' =>
      by_cases e1 : c = '-'
      · subst e1; exact absurd hdig (by decide)
      · by_cases e2 : c = '*'
        · subst e2; exact absurd hdig (by decide)
        · by_cases e3 : c = '+'
          · subst e3; exact absurd hdig (by decide)
          · simp [e1, e2, e3]

/-- C9 counterexample: the line `- item` is classified as a bullet line,
yet the converter emits it as an unstyled paragraph whose single run
still carries the full text `- item` — no list block is produced and the
marker is not stripped before the block reaches the output document. -/
theorem bullet_marker_not_stripped :
    isBulletLine (pyStrip "- item") = true ∧
      (parseMDGo 0 emptyDoc ["- item"]).paragraphs =
        [⟨none, some 0, [⟨"- item".data, none, some false, some false⟩]⟩] := by
  constructor
  · decide
  · rfl

/-- C9 (amended): lines starting with a list marker are classified by the
style scanner, which adds `List Bullet`/`List Number` to the required
set; the block parser, however, has no list branch — it consumes every
marker line through the plain-paragraph branch, leaving the marker text
in the emitted runs instead of stripping it. -/
theorem list_marker_lines (l : String)
    (hb : (isBulletLine (pyStrip l) || isOrderedLine (pyStrip l)) = true) :
    (∀ (acc : List String) (lvl : Nat) (rest : List String),
      (isBulletLine (pyStrip l) = true →
        "List Bullet" ∈ (scanGo (acc, lvl) (l :: rest)).1) ∧
      (isOrderedLine (pyStrip l) = true →
        "List Number" ∈ (scanGo (acc, lvl) (l :: rest)).1)) ∧
    (∀ (ind : Nat) (doc : Doc) (rest : List String),
      parseMDGo ind doc (l :: rest) =
        parseMDGo ind
          (addPara doc ⟨none, some ind, paragraphRuns (pyStrip l).data⟩) rest) := by
  simp only [Bool.or_eq_true] at hb
  have hblank : (pyStrip l).data.isEmpty = false := by
    rcases hb with h | h
    · exact bullet_not_blank h
    · exact ordered_not_blank h
  have hhead : isHeadingLine (pyStrip l) = false := by
    rcases hb with h | h
    · exact bullet_not_heading h
    · exact ordered_not_heading h
  constructor
  · intro acc lvl rest
    constructor
    · intro hbul
      simp only [scanGo, hblank, Bool.false_eq_true, if_false, hhead, hbul, if_true]
      exact scanGo_mem_mono rest _ lvl _ (setAdd_mem_self acc _)
    · intro hord
      have hnb : isBulletLine (pyStrip l) = false := ordered_not_bullet hord
      simp only [scanGo, hblank, Bool.false_eq_true, if_false, hhead, hnb, hord, if_true]
      exact scanGo_mem_mono rest _ lvl _ (setAdd_mem_self acc _)
  · intro ind doc rest
    simp only [parseMDGo, hblank, Bool.false_eq_true, if_false, hhead]

/-- Witness for C9's theorem at the line `- item`. -/
theorem list_marker_lines_witness :
    "List Bullet" ∈ (scanGo ([], 1) ["- item"]).1 ∧
      parseMDGo 0 emptyDoc ["- item"] =
        parseMDGo 0
          (addPara emptyDoc ⟨none, some 0, paragraphRuns (pyStrip "- item").data⟩) [] := by
  have h := list_marker_lines "- item" (by decide)
  exact ⟨(h.1 [] 1 []).1 (by decide), h.2 0 emptyDoc []⟩

/-! ## C1: inline-run coverage of a paragraph line -/

theorem tagAt_some {s t : List Char} (h : tagAt s = some t) :
    (t = "<b>".data ∨ t = "</b>".data ∨ t = "<i>".data ∨ t = "</i>".data) ∧
      t.isPrefixOf s = true := by
  unfold tagAt at h
  split_ifs at h with h1 h2 h3 h4
  · cases h; exact ⟨Or.inl rfl, h1⟩
  · cases h; exact ⟨Or.inr (Or.inl rfl), h2⟩
  · cases h; exact ⟨Or.inr (Or.inr (Or.inl rfl)), h3⟩
  · cases h; exact ⟨Or.inr (Or.inr (Or.inr rfl)), h4⟩

theorem tagAt_none {s : List Char} (h : tagAt s = none) :
    "<b>".data.isPrefixOf s = false ∧ "</b>".data.isPrefixOf s = false ∧
      "<i>".data.isPrefixOf s = false ∧ "</i>".data.isPrefixOf s = false := by
  have bff : ∀ {x : Bool}, ¬(x = true) → x = false := by
    intro x hx
    cases x
    · rfl
    · exact absurd rfl hx
  unfold tagAt at h
  split_ifs at h with h1 h2 h3 h4
  exact ⟨bff h1, bff h2, bff h3, bff h4⟩

theorem findTag_eq_append {s : List Char} :
    ∀ {b t a : List Char}, findTag s = some (b, t, a) → s = b ++ t ++ a := by
  induction s with
  | nil => intro b t a h; simp [findTag] at h
  | cons x xs ih =>
    intro b t a h
    unfold findTag at h
    cases ht : tagAt (x :: xs) with
    | some t0 =>
      rw [ht] at h
      cases h
      simpa using prefixOf_eq_append (tagAt_some ht).2
    | none =>
      rw [ht] at h
      cases hf : findTag xs with
      | some bta =>
        obtain ⟨b', t', a'⟩ := bta
        rw [hf] at h
        cases h
        simpa using ih hf
      | none => rw [hf] at h; cases h

theorem findTag_tag {s : List Char} :
    ∀ {b t a : List Char}, findTag s = some (b, t, a) →
      t = "<b>".data ∨ t = "</b>".data ∨ t = "<i>".data ∨ t = "</i>".data := by
  induction s with
  | nil => intro b t a h; simp [findTag] at h
  | cons x xs ih =>
    intro b t a h
    unfold findTag at h
    cases ht : tagAt (x :: xs) with
    | some t0 =>
      rw [ht] at h
      cases h
      exact (tagAt_some ht).1
    | none =>
      rw [ht] at h
      cases hf : findTag xs with
      | some bta =>
        obtain ⟨b', t', a'⟩ := bta
        rw [hf] at h
        cases h
        exact ih hf
      | none => rw [hf] at h; cases h

theorem findTag_tail_length {s b t a : List Char} (h : findTag s = some (b, t, a)) :
    a.length < s.length := by
  have hs := findTag_eq_append h
  have ht : 1 ≤ t.length := by
    rcases findTag_tag h with rfl | rfl | rfl | rfl <;> decide
  have := congrArg List.length hs
  simp only [List.length_append] at this
  omega

theorem findTag_before {s : List Char} :
    ∀ {b t a : List Char}, findTag s = some (b, t, a) → findTag b = none := by
  induction s with
  | nil => intro b t a h; simp [findTag] at h
  | cons x xs ih =>
    intro b t a h
    unfold findTag at h
    cases ht : tagAt (x :: xs) with
    | some t0 =>
      rw [ht] at h
      cases h
      rfl
    | none =>
      rw [ht] at h
      cases hf : findTag xs with
      | some bta =>
        obtain ⟨b', t', a'⟩ := bta
        rw [hf] at h
        cases h
        have hx : tagAt (x :: b') = none := by
          cases hta : tagAt (x :: b') with
          | none => rfl
          | some u =>
            have hu := tagAt_some hta
            have hxs : x :: xs = (x :: b') ++ (t ++ a) := by
              have := findTag_eq_append hf
              simp [this]
            have hup : u.isPrefixOf (x :: xs) = true := by
              rw [hxs]
              exact prefixOf_append_ext _ hu.2
            have hn := tagAt_none ht
            rcases hu.1 with rfl | rfl | rfl | rfl
            · simp [hn.1] at hup
            · simp [hn.2.1] at hup
            · simp [hn.2.2.1] at hup
            · simp [hn.2.2.2] at hup
        unfold findTag
        rw [hx, ih hf]
      | none => rw [hf] at h; cases h

theorem runsText_cons (r : Run) (rs : List Run) :
    runsText (r :: rs) = r.text ++ runsText rs := by
  simp [runsText, joinCs]

theorem emit_strip : ∀ (fuel : Nat) (s : List Char), s.length ≤ fuel →
    ∀ (bo it : Bool),
      runsText (emitRuns bo it (splitTagsF fuel s)) = stripTagsF fuel s := by
  intro fuel
  induction fuel with
  | zero =>
    intro s hf bo it
    have hs : s = [] := List.length_eq_zero.1 (Nat.le_zero.1 hf)
    subst hs
    simp [splitTagsF, stripTagsF, emitRuns, runsText, joinCs]
  | succ fuel ih =>
    intro s hf bo it
    cases hft : findTag s with
    | none =>
      have h1 : s ≠ "<b>".data := fun e => by
        rw [e] at hft; exact absurd hft (by decide)
      have h2 : s ≠ "</b>".data := fun e => by
        rw [e] at hft; exact absurd hft (by decide)
      have h3 : s ≠ "<i>".data := fun e => by
        rw [e] at hft; exact absurd hft (by decide)
      have h4 : s ≠ "</i>".data := fun e => by
        rw [e] at hft; exact absurd hft (by decide)
      simp only [splitTagsF, stripTagsF, hft]
      simp [emitRuns, h1, h2, h3, h4, runsText, joinCs]
    | some bta =>
      obtain ⟨b, t, a⟩ := bta
      have hbf : findTag b = none := findTag_before hft
      have hb1 : b ≠ "<b>".data := fun e => by
        rw [e] at hbf; exact absurd hbf (by decide)
      have hb2 : b ≠ "</b>".data := fun e => by
        rw [e] at hbf; exact absurd hbf (by decide)
      have hb3 : b ≠ "<i>".data := fun e => by
        rw [e] at hbf; exact absurd hbf (by decide)
      have hb4 : b ≠ "</i>".data := fun e => by
        rw [e] at hbf; exact absurd hbf (by decide)
      have halen : a.length ≤ fuel := by
        have := findTag_tail_length hft
        omega
      simp only [splitTagsF, stripTagsF, hft]
      rcases findTag_tag hft with rfl | rfl | rfl | rfl <;>
        simp [emitRuns, hb1, hb2, hb3, hb4, runsText_cons, ih a halen]

theorem splitTicks_ne_nil : ∀ s : List Char, splitTicks s ≠ [] := by
  intro s
  induction s with
  | nil => simp [splitTicks]
  | cons c r ih =>
    unfold splitTicks
    by_cases hc : c = '\x60'
    · simp [hc]
    · rw [if_neg hc]
      split <;> simp

theorem unsplit_splitTicks : ∀ s : List Char, unsplitTicks (splitTicks s) = s := by
  intro s
  induction s with
  | nil => rfl
  | cons c r ih =>
    unfold splitTicks
    by_cases hc : c = '\x60'
    · rw [if_pos hc]
      cases hs : splitTicks r with
      | nil => exact absurd hs (splitTicks_ne_nil r)
      | cons p ps =>
        rw [show unsplitTicks ([] :: p :: ps) = '\x60' :: unsplitTicks (p :: ps) from rfl]
        rw [← hs, ih, hc]
    · rw [if_neg hc]
      cases hs : splitTicks r with
      | nil => exact absurd hs (splitTicks_ne_nil r)
      | cons p ps =>
        cases ps with
        | nil =>
          rw [show unsplitTicks [c :: p] = c :: p from rfl]
          have : unsplitTicks [p] = r := by rw [← hs, ih]
          rw [show unsplitTicks [p] = p from rfl] at this
          rw [this]
        | cons q qs =>
          rw [show unsplitTicks ((c :: p) :: q :: qs) =
            (c :: p) ++ '\x60' :: unsplitTicks (q :: qs) from rfl]
          have : unsplitTicks (p :: q :: qs) = r := by rw [← hs, ih]
          rw [show unsplitTicks (p :: q :: qs) =
            p ++ '\x60' :: unsplitTicks (q :: qs) from rfl] at this
          simp [← this]

theorem codeScan_no_match {s : List Char} (h : (codeScan s).1 = []) :
    (codeScan s).2 = s := by
  unfold codeScan at h ⊢
  cases hp : splitTicks s with
  | nil => exact absurd hp (splitTicks_ne_nil s)
  | cons p ps =>
    rw [hp] at h
    cases ps with
    | nil =>
      have hu := unsplit_splitTicks s
      rw [hp] at hu
      simpa [codePair, unsplitTicks] using hu
    | cons q qs =>
      cases qs with
      | nil =>
        have hu := unsplit_splitTicks s
        rw [hp] at hu
        simpa [codePair, unsplitTicks] using hu
      | cons r rs =>
        simp [codePair] at h

theorem joinCs_append (a b : List (List Char)) :
    joinCs (a ++ b) = joinCs a ++ joinCs b := by
  induction a with
  | nil => simp [joinCs]
  | cons x xs ih =>
    simp only [joinCs, List.foldr_cons, List.cons_append] at ih ⊢
    rw [ih]
    simp [List.append_assoc]

theorem runsText_append (a b : List Run) :
    runsText (a ++ b) = runsText a ++ runsText b := by
  simp [runsText, List.map_append, joinCs_append]

/-- C1 counterexample: for the paragraph line `` `x` a**b**c `` the
concatenated run text is `x abc` (the code snippet is hoisted to the
front and the `**` delimiters are consumed by the emphasis rewriting),
which differs from the line with its code spans removed, `" a**b**c"` —
so the emitted runs do not cover the original text verbatim and are not
in source order. -/
theorem paragraph_runs_not_verbatim :
    runsText (paragraphRuns "`x` a**b**c".data) ≠ (codeScan "`x` a**b**c".data).2 := by
  decide

/-- C1 (amended): the concatenated run text of a paragraph line equals
the code-span contents (hoisted to the front, in source order) followed
by the line with code spans removed, after the emphasis substitutions
have consumed matched `***`/`**`/`*` delimiter pairs and with the four
generated tags deleted; within those two groups no character is lost or
duplicated and the runs are in source order. -/
theorem paragraph_runs_coverage (s : List Char) :
    runsText (paragraphRuns s) =
      joinCs (codeScan s).1 ++ stripTags (emphAll (codeScan s).2) := by
  unfold paragraphRuns
  rw [runsText_append]
  have hcode : runsText ((codeScan s).1.map
      (fun c => (⟨c, some "Inline Code", none, none⟩ : Run))) = joinCs (codeScan s).1 := by
    simp only [runsText, List.map_map]
    rw [show Run.text ∘ (fun c => (⟨c, some "Inline Code", none, none⟩ : Run)) = id from rfl,
      List.map_id]
  rw [hcode]
  congr 1
  by_cases hE : (codeScan s).1.isEmpty = true
  · have h0 : (codeScan s).1 = [] := by simpa using hE
    have h2 : (codeScan s).2 = s := codeScan_no_match h0
    rw [if_pos hE, h2]
    exact emit_strip _ _ le_rfl false false
  · rw [if_neg hE]
    exact emit_strip _ _ le_rfl false false

/-! ## C10: sentinel title emission -/

theorem addPara_paragraphs (doc : Doc) (p : Para) :
    (addPara doc p).paragraphs = doc.paragraphs ++ [p] := rfl

theorem parseMDGo_coreTitle :
    ∀ (lines : List String) (ind : Nat) (doc : Doc),
      (parseMDGo ind doc lines).coreTitle = doc.coreTitle := by
  intro lines
  induction lines with
  | nil => intro ind doc; rfl
  | cons l rest ih =>
    intro ind doc
    simp only [parseMDGo]
    split
    · exact ih ind doc
    · split
      · rw [ih]; rfl
      · rw [ih]; rfl

theorem parseMDGo_paragraphs :
    ∀ (lines : List String) (ind : Nat) (doc : Doc),
      ∃ suf, (parseMDGo ind doc lines).paragraphs = doc.paragraphs ++ suf := by
  intro lines
  induction lines with
  | nil => intro ind doc; exact ⟨[], by simp [parseMDGo]⟩
  | cons l rest ih =>
    intro ind doc
    simp only [parseMDGo]
    split
    · exact ih ind doc
    · split
      · obtain ⟨suf, hp⟩ := ih _ _
        rw [hp, addPara_paragraphs, List.append_assoc]
        exact ⟨_, rfl⟩
      · obtain ⟨suf, hp⟩ := ih _ _
        rw [hp, addPara_paragraphs, List.append_assoc]
        exact ⟨_, rfl⟩

theorem parseMarkdownToWord_coreTitle (lines : List String) (doc : Doc) :
    (parseMarkdownToWord lines doc).coreTitle = doc.coreTitle := by
  unfold parseMarkdownToWord
  split
  · exact parseMDGo_coreTitle lines 0 doc
  · exact parseMDGo_coreTitle lines 0 _

theorem parseMarkdownToWord_paragraphs (lines : List String) (doc : Doc) :
    ∃ suf, (parseMarkdownToWord lines doc).paragraphs = doc.paragraphs ++ suf := by
  unfold parseMarkdownToWord
  split
  · exact parseMDGo_paragraphs lines 0 doc
  · exact parseMDGo_paragraphs lines 0 _

theorem applyMetadata_coreTitle (doc : Doc) (m : Meta) :
    (applyMetadata doc m).coreTitle = (dictGet m "Title").getD sentinel := rfl

theorem applyMetadata_paragraphs (doc : Doc) (m : Meta) :
    (applyMetadata doc m).paragraphs = doc.paragraphs ++
      (applyMetadata { doc with paragraphs := [] } m).paragraphs := by
  unfold applyMetadata addParaText addPara
  simp

/-- C10: when extraction leaves the Title at the sentinel and no Setext
underline pair fires, `convert` still succeeds, the first emitted
paragraph is a `Title`-styled paragraph whose text is exactly
`-unassigned-`, and the document's core title property ends up as that
same sentinel. -/
theorem convert_sentinel_title (p : String → YamlResult) (tDoc : Doc)
    (lines : List String) (m : Meta)
    (h0 : tDoc.paragraphs = [])
    (h1 : extractMetadata p lines = .ok m)
    (h2 : dictGet m "Title" = some sentinel)
    (h3 : (detectGo lines).1 = none) :
    ∃ d, convert p tDoc lines = .ok d ∧
      d.paragraphs.head? =
        some ⟨some "Title", none, [⟨sentinel.data, none, none, none⟩]⟩ ∧
      d.coreTitle = sentinel := by
  have hdT : detectTitle lines m = (m, (detectGo lines).2) := by
    unfold detectTitle
    rcases hdg : detectGo lines with ⟨fst, snd⟩
    rw [hdg] at h3
    simp only at h3
    subst h3
    rfl
  have hinner : ({ addParaText tDoc sentinel (some "Title") with
      coreTitle := sentinel } : Doc).paragraphs =
      [⟨some "Title", none, [⟨sentinel.data, none, none, none⟩]⟩] := by
    unfold addParaText addPara
    rw [h0]
    rfl
  refine ⟨applyMetadata
    (parseMarkdownToWord (detectGo lines).2
      { addParaText tDoc sentinel (some "Title") with coreTitle := sentinel }) m,
    ?_, ?_, ?_⟩
  · unfold convert
    simp [h1, h2, hdT]
  · obtain ⟨suf, hps⟩ := parseMarkdownToWord_paragraphs (detectGo lines).2
      { addParaText tDoc sentinel (some "Title") with coreTitle := sentinel }
    rw [applyMetadata_paragraphs, hps, hinner]
    simp
  · rw [applyMetadata_coreTitle, h2]
    rfl

/-- Witness for C10's theorem on the single body line `hello` with no
front matter. -/
theorem convert_sentinel_title_witness :
    ∃ d, convert (fun _ => .parseError) emptyDoc ["hello"] = .ok d ∧
      d.paragraphs.head? =
        some ⟨some "Title", none, [⟨sentinel.data, none, none, none⟩]⟩ ∧
      d.coreTitle = sentinel :=
  convert_sentinel_title (fun _ => .parseError) emptyDoc ["hello"] defaultMeta
    rfl rfl (by decide) rfl

end MarkdownGov

